import Mathlib

/-!
Shallow embedding of the go-buildtags tool (src/main.go): the known-tag
registries, the tag set, the filename tag extractor `parsename`, the
constraint-expression walker `addtags`, the header scanner `parsetags`,
the per-file `parse`, and the aggregation/classification loop of `run`.
External collaborators (the go/build/constraint library, the filesystem
and the go list command) are modelled as parameters or as inputs.
-/

namespace GoBuildtags

/-- The fixed list of known GOOS values (src/main.go, `knownOS`). -/
def knownOSList : List String :=
  ["aix", "android", "darwin", "dragonfly", "freebsd", "hurd", "illumos",
   "ios", "js", "linux", "nacl", "netbsd", "openbsd", "plan9", "solaris",
   "windows", "zos"]

/-- Membership test of the `knownOS` map (a Go `map[string]bool` lookup). -/
def knownOS (tag : String) : Bool := decide (tag ∈ knownOSList)

/-- The fixed list of known GOARCH values (src/main.go, `knownArch`). -/
def knownArchList : List String :=
  ["386", "amd64", "amd64p32", "arm", "armbe", "arm64", "arm64be", "mips",
   "mipsle", "mips64", "mips64le", "mips64p32", "mips64p32le", "ppc",
   "ppc64", "ppc64le", "riscv", "riscv64", "s390", "s390x", "sparc",
   "sparc64", "wasm"]

/-- Membership test of the `knownArch` map. -/
def knownArch (tag : String) : Bool := decide (tag ∈ knownArchList)

/-- The release-tag registry after `init` has run: the literal "go1" from the
map literal, plus "go1." ++ Itoa i for every i with 1 ≤ i < 256, added by the
loop `for i := 1; i < 256; i++` in `init` (src/main.go). -/
def knownReleaseTagList : List String :=
  "go1" :: (List.range' 1 255).map (fun i => "go1." ++ Nat.repr i)

/-- Membership test of the `knownReleaseTag` map after `init`. -/
def knownReleaseTag (tag : String) : Bool := decide (tag ∈ knownReleaseTagList)

/-- The fixed list of known special build tags (src/main.go, `knownSpecialTag`). -/
def knownSpecialTagList : List String := ["cgo", "gc", "gccgo"]

/-- Membership test of the `knownSpecialTag` map. -/
def knownSpecialTag (tag : String) : Bool := decide (tag ∈ knownSpecialTagList)

/-- The `tagset` type of src/main.go: a `map[string]struct\x7b\x7d` used as a
set of strings, modelled as a finite set. -/
abbrev tagset := Finset String

/-- `tagset.add` (src/main.go): idempotent insertion. -/
def tagset.add (set : tagset) (tag : String) : tagset := insert tag set

/-- `tagset.sorted` (src/main.go): the lexicographically ascending list of the
set's members (the Go code collects the map keys and runs `sort.Strings`). -/
def tagset.sorted (set : tagset) : List String := Finset.sort (· ≤ ·) set

/-- The `go/build/constraint` expression tree: tag atoms, negation,
conjunction and disjunction (`constraint.TagExpr`, `constraint.NotExpr`,
`constraint.AndExpr`, `constraint.OrExpr`). -/
inductive Expr where
  | tag (t : String)
  | not (x : Expr)
  | and (x y : Expr)
  | or (x y : Expr)
deriving DecidableEq, Repr

/-- `addtags` (src/main.go): walks the constraint expression and adds tags to
the set.  The Go `switch` has cases for `*constraint.NotExpr`,
`*constraint.OrExpr` and `*constraint.TagExpr` only; any other node kind
(in particular `*constraint.AndExpr`) falls through with no action. -/
def addtags (tags : tagset) : Expr → tagset
  | .not x => addtags tags x
  | .or x y => addtags (addtags tags x) y
  | .tag t => tags.add t
  | .and _ _ => tags

/-- Go `strings.Split` with a single-character separator: splits a character
list at every occurrence of `sep`; always returns at least one piece. -/
def splitOnChar (sep : Char) : List Char → List (List Char)
  | [] => [[]]
  | c :: rest =>
    if c = sep then
      [] :: splitOnChar sep rest
    else
      match splitOnChar sep rest with
      | [] => [[c]]
      | piece :: pieces => (c :: piece) :: pieces

/-- `parsename` (src/main.go): the tags specified in the Go file name.  The
Go function returns a `[2]string`; an empty string means no tag in that slot.
It strips the extension (everything from the first dot), requires an
underscore, splits the text after the first underscore on underscores, drops
a trailing "test" component, and then matches the known OS/Arch suffixes. -/
def parsename (name : String) : String × String :=
  let base := name.data.takeWhile (fun c => c ≠ '.')
  match splitOnChar '_' base with
  | [] => ("", "")
  | [_] => ("", "")
  | _ :: rest =>
    let pieces := rest.map (fun p => String.mk p)
    let l :=
      if pieces.getLast? = some "test" then pieces.dropLast else pieces
    let n := l.length
    if 2 ≤ n ∧ knownOS (l.getD (n - 2) "") ∧ knownArch (l.getD (n - 1) "") then
      (l.getD (n - 1) "", l.getD (n - 2) "")
    else if 1 ≤ n ∧ (knownOS (l.getD (n - 1) "") ∨ knownArch (l.getD (n - 1) "")) then
      (l.getD (n - 1) "", "")
    else
      ("", "")

/-- The external `go/build/constraint` library, as used by src/main.go: two
line recognizers (`constraint.IsGoBuild`, `constraint.IsPlusBuild`) and the
line parser (`constraint.Parse`), which either returns an expression tree or
fails with a syntax error. -/
structure ConstraintLib where
  isGoBuild : String → Bool
  isPlusBuild : String → Bool
  parseLine : String → Except String Expr

/-- `isBuildLine` (src/main.go): a line is a build-constraint directive when
either recognizer of the constraint library accepts it. -/
def isBuildLine (lib : ConstraintLib) (line : String) : Bool :=
  lib.isGoBuild line || lib.isPlusBuild line

/-- `parsetags` (src/main.go): scan the header line by line; skip lines that
are not build directives; parse each directive line, failing the whole file
on the first syntax error; otherwise walk the expression with `addtags`.
The header byte range is modelled as its list of lines. -/
def parsetags (lib : ConstraintLib) (tags : tagset) :
    List String → Except String tagset
  | [] => .ok tags
  | line :: rest =>
    if isBuildLine lib line then
      match lib.parseLine line with
      | .error e => .error ("parsetags: " ++ e)
      | .ok expr => parsetags lib (addtags tags expr) rest
    else
      parsetags lib tags rest

/-- A Go source file as the core sees it: its base name and the lines of its
header (the byte range returned by the external `parseheader`). -/
structure GoFile where
  name : String
  header : List String
deriving DecidableEq

/-- `parse` (src/main.go): add the tags from the file name (the non-empty
slots of `parsename`), then the tags from the header directives. -/
def parse (lib : ConstraintLib) (tags : tagset) (file : GoFile) :
    Except String tagset :=
  let autotags := parsename file.name
  let tags1 := if autotags.1 ≠ "" then tagset.add tags autotags.1 else tags
  let tags2 := if autotags.2 ≠ "" then tagset.add tags1 autotags.2 else tags1
  parsetags lib tags2 file.header

/-- The inner loop of `run` (src/main.go) over the Go files of one package
directory: each file's tags accumulate into the shared set; the first error
aborts. -/
def runFiles (lib : ConstraintLib) (tags : tagset) :
    List GoFile → Except String tagset
  | [] => .ok tags
  | file :: rest =>
    match parse lib tags file with
    | .error e => .error e
    | .ok tags1 => runFiles lib tags1 rest

/-- The outer loop of `run` (src/main.go) over the package directories
returned by `golist`; each directory is modelled by its list of Go files
(the result of the external `readdir`). -/
def runDirs (lib : ConstraintLib) (tags : tagset) :
    List (List GoFile) → Except String tagset
  | [] => .ok tags
  | dir :: rest =>
    match runFiles lib tags dir with
    | .error e => .error e
    | .ok tags1 => runDirs lib tags1 rest

/-- The five output buckets of `run` (src/main.go): `goos`, `goarch`,
`release`, `special` and `build`. -/
inductive Bucket where
  | goos
  | goarch
  | release
  | special
  | build
deriving DecidableEq, Repr

/-- The `switch` in the categorization loop of `run` (src/main.go): the first
matching registry decides the bucket; tags in no registry default to the
general `build` bucket. -/
def classify (tag : String) : Bucket :=
  if knownOS tag then .goos
  else if knownArch tag then .goarch
  else if knownReleaseTag tag then .release
  else if knownSpecialTag tag then .special
  else .build

/-- The bucket sets built by the categorization loop of `run`: the loop adds
each accumulated tag to the one bucket chosen by its `switch`, so bucket `b`
holds exactly the accumulated tags that classify to `b`. -/
def bucketOf (tags : tagset) (b : Bucket) : tagset :=
  tags.filter (fun t => classify t = b)

/-- The printed output of `run` (src/main.go): five sorted tag lists, one per
bucket, in the fixed print order. -/
structure Output where
  goos : List String
  goarch : List String
  release : List String
  special : List String
  build : List String
deriving DecidableEq, Repr

/-- The categorization and printing phase of `run` (src/main.go), as a pure
function of the accumulated tag set. -/
def categorize (tags : tagset) : Output where
  goos := tagset.sorted (bucketOf tags .goos)
  goarch := tagset.sorted (bucketOf tags .goarch)
  release := tagset.sorted (bucketOf tags .release)
  special := tagset.sorted (bucketOf tags .special)
  build := tagset.sorted (bucketOf tags .build)

/-- `run` (src/main.go): accumulate the tags of every file of every
directory, then categorize and print; any error from the parsing loops is
returned before any bucket line is produced. -/
def run (lib : ConstraintLib) (dirs : List (List GoFile)) :
    Except String Output :=
  match runDirs lib ∅ dirs with
  | .error e => .error e
  | .ok tags => .ok (categorize tags)

/-- Modelled from the spec: the external `go/build/constraint` parser is not
part of this repository; by the grammar the spec describes for the modern
directive form, the line "//go:build (linux || darwin) && !cgo" parses to a
conjunction whose left operand is the parenthesized disjunction of the atoms
linux and darwin and whose right operand is the negation of the atom cgo. -/
def modernLineExpr : Expr :=
  .and (.or (.tag "linux") (.tag "darwin")) (.not (.tag "cgo"))

/-- The text of the modern directive line of the spec's example. -/
def modernLine : String := "//go:build (linux || darwin) && !cgo"

/-- Modelled from the spec: by the grammar the spec describes for the legacy
directive form (space-separated clauses are disjuncts, comma-separated items
inside a clause are conjuncts, "!" negates an item), the line
"// +build linux,!cgo darwin" parses to the disjunction of (linux and not
cgo) with the atom darwin. -/
def legacyLineExpr : Expr :=
  .or (.and (.tag "linux") (.not (.tag "cgo"))) (.tag "darwin")

/-- The text of the legacy directive line of the spec's example. -/
def legacyLine : String := "// +build linux,!cgo darwin"

/-- Modelled from the spec: the behavior of the external constraint library
on the two concrete directive lines of the spec's examples.  The modern line
is recognized by the go:build recognizer, the legacy line by the plus-build
recognizer, and each parses to its modelled expression tree; every other
line is not a directive. -/
def specLib : ConstraintLib where
  isGoBuild := fun line => line == modernLine
  isPlusBuild := fun line => line == legacyLine
  parseLine := fun line =>
    if line == modernLine then .ok modernLineExpr
    else if line == legacyLine then .ok legacyLineExpr
    else .error "syntax error"

/-- A constraint library whose go:build recognizer accepts one line and whose
parser rejects every line with a syntax error, for exercising the error
path of `parsetags` and `run` on a concrete input. -/
def badLib : ConstraintLib where
  isGoBuild := fun line => line == "//go:build !!!"
  isPlusBuild := fun _ => false
  parseLine := fun _ => .error "syntax error"

/-- A Go file whose header holds a single malformed directive line. -/
def badFile : GoFile := ⟨"a.go", ["//go:build !!!"]⟩

/-- C1: the claim says the walker recurses through conjunction nodes and
collects \x7b"linux","darwin","cgo"\x7d from the modern directive line
"//go:build (linux || darwin) && !cgo".  The code does not: `addtags` has no
case for a conjunction node, so the whole line (whose root is a conjunction)
contributes nothing — scanning a header made of exactly that line leaves the
tag set empty, which differs from the claimed three-atom set. -/
theorem addtags_modernLine_empty :
    (∀ tags : tagset, addtags tags modernLineExpr = tags) ∧
    parsetags specLib ∅ [modernLine] = .ok (∅ : tagset) ∧
    (∅ : tagset) ≠ ({"linux", "darwin", "cgo"} : Finset String) :=
  ⟨fun _ => rfl, rfl, by decide⟩

/-- C2: the claim says the legacy directive line "// +build linux,!cgo darwin"
contributes the atom set \x7b"linux","cgo","darwin"\x7d.  The code collects
only "darwin": the line parses to a disjunction whose left operand is the
conjunction (linux and not cgo), and `addtags` drops the conjunction, so
scanning a header made of exactly that line adds only the tag "darwin". -/
theorem addtags_legacyLine_darwin_only :
    (∀ tags : tagset, addtags tags legacyLineExpr = tagset.add tags "darwin") ∧
    parsetags specLib ∅ [legacyLine] = .ok (tagset.add ∅ "darwin") ∧
    tagset.add (∅ : tagset) "darwin" ≠ ({"linux", "cgo", "darwin"} : Finset String) :=
  ⟨fun _ => rfl, rfl, by decide⟩

/-- C3: applied to an expression whose root is a conjunction node, `addtags`
leaves the tag set unchanged: the `switch` has no conjunction case, so no tag
from either subtree is added. -/
theorem addtags_and_unchanged (tags : tagset) (x y : Expr) :
    addtags tags (Expr.and x y) = tags := rfl

/-- C4 counterexample: the claim says parsename "foo_amd64_linux.go" yields
the empty set, but the code returns the single tag "linux": the last suffix
component "linux" is a known OS, so the single-tag rule fires even though the
OS-before-Arch pair rule does not. -/
theorem parsename_amd64_linux_not_empty :
    parsename "foo_amd64_linux.go" = ("linux", "") ∧
    parsename "foo_amd64_linux.go" ≠ ("", "") := by decide

/-- C4 amended: parsename "foo_linux_amd64.go" yields both tags, "amd64" and
"linux"; parsename "foo_amd64_linux.go" yields no pair (wrong order), but the
last component "linux" is a known OS tag, so it yields the single tag
"linux". -/
theorem parsename_suffix_order :
    parsename "foo_linux_amd64.go" = ("amd64", "linux") ∧
    parsename "foo_amd64_linux.go" = ("linux", "") := by decide

/-- C9: a trailing "test" suffix component is dropped before tag matching and
is never itself a tag: parsename "foo_test.go" yields no tags, and
parsename "foo_linux_test.go" yields exactly the tag "linux". -/
theorem parsename_test_dropped :
    parsename "foo_test.go" = ("", "") ∧
    parsename "foo_linux_test.go" = ("linux", "") := by decide

/-- C10: a base name beginning with an underscore still contributes
filename-derived tags: parsename "_linux.go" yields the tag "linux", and the
per-file `parse` adds it to the tag set (no leading-underscore skip). -/
theorem parsename_leading_underscore :
    parsename "_linux.go" = ("linux", "") ∧
    (∀ lib : ConstraintLib,
      parse lib ∅ ⟨"_linux.go", []⟩ = .ok (tagset.add ∅ "linux")) :=
  ⟨by decide, fun _ => rfl⟩

/-- The data of a string with the "go1." language-release marker in front. -/
theorem data_go1dot (s : String) :
    ("go1." ++ s).data = 'g' :: 'o' :: '1' :: '.' :: s.data := rfl

/-- No known OS name starts with "go1.". -/
theorem knownOS_go1dot (s : String) : knownOS ("go1." ++ s) = false := by
  simp only [knownOS, knownOSList, decide_eq_false_iff_not, List.mem_cons,
    List.not_mem_nil, or_false]
  intro hmem
  rcases hmem with h|h|h|h|h|h|h|h|h|h|h|h|h|h|h|h|h <;>
  · have h2 := congrArg String.data h
    rw [data_go1dot] at h2
    injection h2 with hc _
    exact absurd hc (by decide)

/-- No known architecture name starts with "go1.". -/
theorem knownArch_go1dot (s : String) : knownArch ("go1." ++ s) = false := by
  simp only [knownArch, knownArchList, decide_eq_false_iff_not, List.mem_cons,
    List.not_mem_nil, or_false]
  intro hmem
  rcases hmem with h|h|h|h|h|h|h|h|h|h|h|h|h|h|h|h|h|h|h|h|h|h|h <;>
  · have h2 := congrArg String.data h
    rw [data_go1dot] at h2
    injection h2 with hc _
    exact absurd hc (by decide)

/-- Membership in the release-tag registry after `init`, characterized: the
literal "go1" plus "go1.N" for every N between 1 and 255. -/
theorem knownReleaseTag_iff (t : String) :
    knownReleaseTag t = true ↔
      t = "go1" ∨ ∃ n : Nat, 1 ≤ n ∧ n ≤ 255 ∧ t = "go1." ++ Nat.repr n := by
  simp only [knownReleaseTag, decide_eq_true_eq, knownReleaseTagList,
    List.mem_cons, List.mem_map, List.mem_range'_1]
  constructor
  · rintro (rfl | ⟨n, ⟨h1, h2⟩, rfl⟩)
    · exact Or.inl rfl
    · exact Or.inr ⟨n, h1, by omega, rfl⟩
  · rintro (rfl | ⟨n, h1, h2, rfl⟩)
    · exact Or.inl rfl
    · exact Or.inr ⟨n, ⟨h1, by omega⟩, rfl⟩

/-- A tag of the release-tag registry is classified into the release bucket:
no release identifier is a known OS or architecture name. -/
theorem classify_of_release (t : String) (h : knownReleaseTag t = true) :
    classify t = Bucket.release := by
  rcases (knownReleaseTag_iff t).1 h with rfl | ⟨n, h1, h2, rfl⟩
  · decide
  · simp only [classify, knownOS_go1dot, knownArch_go1dot, Bool.false_eq_true,
      if_false, h, if_true]

/-- C5: the release-tag registry holds exactly "go1" and "go1.N" for
1 ≤ N ≤ 255 and nothing else; every registry member in the accumulated set
lands in the release bucket, and "go1.256" is outside the registry and is
not classified as a release tag. -/
theorem releaseTag_registry :
    (∀ t : String, knownReleaseTag t = true ↔
      (t = "go1" ∨ ∃ n : Nat, 1 ≤ n ∧ n ≤ 255 ∧ t = "go1." ++ Nat.repr n)) ∧
    (∀ (tags : tagset) (t : String), t ∈ tags → knownReleaseTag t = true →
      t ∈ bucketOf tags Bucket.release) ∧
    knownReleaseTag "go1.256" = false ∧
    classify "go1.256" ≠ Bucket.release := by
  refine ⟨knownReleaseTag_iff, ?_, by decide, by decide⟩
  intro tags t ht h
  exact Finset.mem_filter.2 ⟨ht, classify_of_release t h⟩

/-- C5 witness: the concrete release identifier "go1.7" is in the registry
and is classified into the release bucket of a concrete accumulated set. -/
theorem releaseTag_registry_witness :
    knownReleaseTag "go1.7" = true ∧
    "go1.7" ∈ bucketOf {"go1.7", "linux"} Bucket.release :=
  ⟨by decide,
   releaseTag_registry.2.1 {"go1.7", "linux"} "go1.7" (by decide) (by decide)⟩

/-- C6: for any accumulated set, every tag of the set lies in exactly one of
the five buckets (the one its first-match `switch` picks), distinct buckets
are disjoint, and the five buckets together cover the whole set. -/
theorem categorize_partition (tags : tagset) :
    (∀ t ∈ tags, ∃! b : Bucket, t ∈ bucketOf tags b) ∧
    (∀ b1 b2 : Bucket, b1 ≠ b2 → ∀ t, t ∈ bucketOf tags b1 →
      t ∉ bucketOf tags b2) ∧
    (bucketOf tags .goos ∪ bucketOf tags .goarch ∪ bucketOf tags .release ∪
      bucketOf tags .special ∪ bucketOf tags .build) = tags := by
  refine ⟨?_, ?_, ?_⟩
  · intro t ht
    refine ⟨classify t, Finset.mem_filter.2 ⟨ht, rfl⟩, ?_⟩
    intro b hb
    exact ((Finset.mem_filter.1 hb).2).symm
  · intro b1 b2 hne t h1 h2
    exact hne (((Finset.mem_filter.1 h1).2).symm.trans
      ((Finset.mem_filter.1 h2).2))
  · ext t
    simp only [Finset.mem_union, bucketOf, Finset.mem_filter]
    constructor
    · rintro ((((⟨h, _⟩ | ⟨h, _⟩) | ⟨h, _⟩) | ⟨h, _⟩) | ⟨h, _⟩) <;> exact h
    · intro ht
      cases hc : classify t with
      | goos => exact Or.inl (Or.inl (Or.inl (Or.inl ⟨ht, rfl⟩)))
      | goarch => exact Or.inl (Or.inl (Or.inl (Or.inr ⟨ht, rfl⟩)))
      | release => exact Or.inl (Or.inl (Or.inr ⟨ht, rfl⟩))
      | special => exact Or.inl (Or.inr ⟨ht, rfl⟩)
      | build => exact Or.inr ⟨ht, rfl⟩

/-- C6 witness: in the concrete accumulated set with an OS tag and a user
tag, the tag "linux" lies in exactly one bucket. -/
theorem categorize_partition_witness :
    ∃! b : Bucket, "linux" ∈ bucketOf {"linux", "mytag"} b :=
  (categorize_partition {"linux", "mytag"}).1 "linux" (by decide)

/-- C7: every printed bucket list is strictly ascending (hence sorted and
duplicate-free) and holds exactly the bucket's members; `categorize` is a
pure function of the accumulated set, so a second run on the same set gives
the identical output. -/
theorem categorize_sorted_deterministic (tags : tagset) (b : Bucket) :
    List.Sorted (· < ·) (tagset.sorted (bucketOf tags b)) ∧
    (tagset.sorted (bucketOf tags b)).Nodup ∧
    (∀ t : String, t ∈ tagset.sorted (bucketOf tags b) ↔ t ∈ bucketOf tags b) ∧
    categorize tags = categorize tags :=
  ⟨Finset.sort_sorted_lt _, Finset.sort_nodup _ _,
   fun _ => Finset.mem_sort _, rfl⟩

/-- If the header scan succeeds, every qualifying directive line of the
header parsed successfully. -/
theorem parsetags_ok_of_mem (lib : ConstraintLib) (line : String)
    (hbuild : isBuildLine lib line = true) :
    ∀ (lines : List String) (tags tags' : tagset),
      line ∈ lines → parsetags lib tags lines = .ok tags' →
      ∃ ex : Expr, lib.parseLine line = .ok ex := by
  intro lines
  induction lines with
  | nil =>
    intro tags tags' hline _
    cases hline
  | cons l rest ih =>
    intro tags tags' hline h
    simp only [parsetags] at h
    by_cases hb : isBuildLine lib l = true
    · rw [if_pos hb] at h
      cases hp : lib.parseLine l with
      | error e =>
        rw [hp] at h
        exact absurd h (by simp)
      | ok ex =>
        rw [hp] at h
        rcases List.mem_cons.1 hline with rfl | hline'
        · exact ⟨ex, hp⟩
        · exact ih _ _ hline' h
    · rw [if_neg hb] at h
      rcases List.mem_cons.1 hline with rfl | hline'
      · exact absurd hbuild hb
      · exact ih _ _ hline' h

/-- If the per-file parse succeeds, the header scan of that file succeeded
from some intermediate tag set. -/
theorem parse_ok_parsetags (lib : ConstraintLib) (tags tags' : tagset)
    (file : GoFile) (h : parse lib tags file = .ok tags') :
    ∃ t0 : tagset, parsetags lib t0 file.header = .ok tags' :=
  ⟨_, h⟩

/-- If the per-directory file loop succeeds, the per-file parse of every file
of the directory succeeded from some intermediate tag sets. -/
theorem runFiles_ok_parse (lib : ConstraintLib) (file : GoFile) :
    ∀ (files : List GoFile) (tags tags' : tagset),
      file ∈ files → runFiles lib tags files = .ok tags' →
      ∃ t0 t1 : tagset, parse lib t0 file = .ok t1 := by
  intro files
  induction files with
  | nil =>
    intro tags tags' hf _
    cases hf
  | cons f rest ih =>
    intro tags tags' hf h
    simp only [runFiles] at h
    cases hp : parse lib tags f with
    | error e =>
      rw [hp] at h
      exact absurd h (by simp)
    | ok t1 =>
      rw [hp] at h
      rcases List.mem_cons.1 hf with rfl | hf'
      · exact ⟨tags, t1, hp⟩
      · exact ih _ _ hf' h

/-- If the directory loop succeeds, the file loop of every directory
succeeded from some intermediate tag sets. -/
theorem runDirs_ok_runFiles (lib : ConstraintLib) (dir : List GoFile) :
    ∀ (dirs : List (List GoFile)) (tags tags' : tagset),
      dir ∈ dirs → runDirs lib tags dirs = .ok tags' →
      ∃ t0 t1 : tagset, runFiles lib t0 dir = .ok t1 := by
  intro dirs
  induction dirs with
  | nil =>
    intro tags tags' hd _
    cases hd
  | cons d rest ih =>
    intro tags tags' hd h
    simp only [runDirs] at h
    cases hp : runFiles lib tags d with
    | error e =>
      rw [hp] at h
      exact absurd h (by simp)
    | ok t1 =>
      rw [hp] at h
      rcases List.mem_cons.1 hd with rfl | hd'
      · exact ⟨tags, t1, hp⟩
      · exact ih _ _ hd' h

/-- C8: when a qualifying directive line of some file's header fails to
parse, the header scan of that file can never succeed (the error is not
silently skipped), and the whole run returns an error instead of the
five-bucket output. -/
theorem run_aborts_on_syntax_error (lib : ConstraintLib)
    (dirs : List (List GoFile)) (dir : List GoFile) (file : GoFile)
    (line : String) (hdir : dir ∈ dirs) (hfile : file ∈ dir)
    (hline : line ∈ file.header) (hbuild : isBuildLine lib line = true)
    (hfail : ∃ e : String, lib.parseLine line = .error e) :
    (∀ tags tags' : tagset, parsetags lib tags file.header ≠ .ok tags') ∧
    (∀ out : Output, run lib dirs ≠ .ok out) ∧
    (∃ e : String, run lib dirs = .error e) := by
  obtain ⟨e, he⟩ := hfail
  have hnotok : ∀ ex : Expr, lib.parseLine line ≠ .ok ex := by
    intro ex hok
    rw [he] at hok
    exact absurd hok (by simp)
  have hpt : ∀ tags tags' : tagset,
      parsetags lib tags file.header ≠ .ok tags' := by
    intro tags tags' hok
    obtain ⟨ex, hex⟩ :=
      parsetags_ok_of_mem lib line hbuild file.header tags tags' hline hok
    exact hnotok ex hex
  have hrun : ∀ out : Output, run lib dirs ≠ .ok out := by
    intro out hok
    rw [run] at hok
    cases hr : runDirs lib ∅ dirs with
    | error e2 =>
      rw [hr] at hok
      exact absurd hok (by simp)
    | ok tags =>
      obtain ⟨t0, t1, hfiles⟩ :=
        runDirs_ok_runFiles lib dir dirs ∅ tags hdir hr
      obtain ⟨t2, t3, hparse⟩ :=
        runFiles_ok_parse lib file dir t0 t1 hfile hfiles
      obtain ⟨t4, hpt2⟩ := parse_ok_parsetags lib t2 t3 file hparse
      exact hpt t4 t3 hpt2
  refine ⟨hpt, hrun, ?_⟩
  cases hr : run lib dirs with
  | error e2 => exact ⟨e2, rfl⟩
  | ok out => exact absurd hr (hrun out)

/-- C8 witness: a run over one directory holding one file whose header is a
single malformed directive line returns an error and no output. -/
theorem run_aborts_on_syntax_error_witness :
    (∀ out : Output, run badLib [[badFile]] ≠ .ok out) ∧
    (∃ e : String, run badLib [[badFile]] = .error e) :=
  (run_aborts_on_syntax_error badLib [[badFile]] [badFile] badFile
    "//go:build !!!" (List.mem_singleton.2 rfl) (List.mem_singleton.2 rfl)
    (List.mem_singleton.2 rfl) rfl ⟨"syntax error", rfl⟩).2

end GoBuildtags
